import Mathlib

/-!
Shallow embedding of the TCG (Trusted Computing Group) v1 protocol binding
(`src/uefi/src/proto/tcg/v1.rs`) and the extended text-input protocol
(`src/uefi/src/proto/console/text/input_ex.rs`).

Modelling conventions:
* Firmware memory is a byte-addressed function `Nat → Nat`; a byte read is
  taken modulo 256.  The null pointer is address `0`.
* A Rust `&PcrEvent` is a fat pointer `(data address, event_data_size)`;
  the structure `PcrEvent` below models that fat pointer, and the field
  accessors read through it from memory, exactly as the packed `repr(C)`
  layout dictates (little-endian `u32` fields).
* Fallible operations return `Except Nat α`, where the error payload is the
  raw firmware status code, mirroring `uefi::Result`.
-/

namespace Uefi

/-- One byte of firmware memory at address `a`. -/
def byteAt (mem : Nat → Nat) (a : Nat) : Nat := mem a % 256

/-- Little-endian unaligned 4-byte read at address `a`, as performed by
`ptr_u32.read_unaligned()` in `PcrEvent::from_ptr`. -/
def readU32 (mem : Nat → Nat) (a : Nat) : Nat :=
  byteAt mem a + 256 * byteAt mem (a + 1) + 65536 * byteAt mem (a + 2) +
    16777216 * byteAt mem (a + 3)

/-- A run of `n` bytes starting at address `a`. -/
def readBytes (mem : Nat → Nat) (a n : Nat) : List Nat :=
  (List.range n).map fun i => byteAt mem (a + i)

/-- Lossless `u32 → usize` widening (`usize_from_u32` in the `tcg` module,
whose source is outside `src/`; it is a plain numeric conversion and is the
identity on `Nat`). -/
def usize_from_u32 (x : Nat) : Nat := x

/-- Model of a Rust `&PcrEvent`: a fat pointer to a packed, dynamically sized
`TCG_PCR_EVENT` record.  `ptr` is the record's base address and `event_size`
the pointer metadata (the length of the trailing `event_data` slice). -/
structure PcrEvent where
  ptr : Nat
  event_size : Nat
deriving DecidableEq

/-- Model of `mem::size_of_val(event)`: the packed record occupies the
32-byte fixed header (4 + 4 + 20 + 4) plus `event_size` payload bytes. -/
def PcrEvent.size_of_val (e : PcrEvent) : Nat := 32 + e.event_size

/-- Model of `PcrEvent::from_ptr`: read the `event_data_size` field with an
unaligned 4-byte read at byte offset 28 (`ptr_u32.add(7)`), then build the
fat pointer with that metadata. -/
def PcrEvent.from_ptr (mem : Nat → Nat) (p : Nat) : PcrEvent :=
  { ptr := p, event_size := usize_from_u32 (readU32 mem (p + 28)) }

/-- Accessor `PcrEvent::pcr_index` (first `u32` of the header). -/
def PcrEvent.pcr_index (mem : Nat → Nat) (e : PcrEvent) : Nat :=
  readU32 mem e.ptr

/-- Accessor `PcrEvent::event_type` (`u32` at byte offset 4). -/
def PcrEvent.event_type (mem : Nat → Nat) (e : PcrEvent) : Nat :=
  readU32 mem (e.ptr + 4)

/-- Accessor `PcrEvent::digest` (20-byte SHA-1 digest at byte offset 8). -/
def PcrEvent.digest (mem : Nat → Nat) (e : PcrEvent) : List Nat :=
  readBytes mem (e.ptr + 8) 20

/-- Accessor `PcrEvent::event_data` (the trailing `event_size` bytes at byte
offset 32). -/
def PcrEvent.event_data (mem : Nat → Nat) (e : PcrEvent) : List Nat :=
  readBytes mem (e.ptr + 32) e.event_size

/-- Model of `EventLog`: a borrowed `[location, last_entry]` range over raw
memory plus the `is_truncated` flag. -/
structure EventLog where
  location : Nat
  last_entry : Nat
  is_truncated : Bool
deriving DecidableEq

/-- Model of `EventLog::new`. -/
def EventLog.new (location last_entry : Nat) (is_truncated : Bool) : EventLog :=
  { location := location, last_entry := last_entry, is_truncated := is_truncated }

/-- Model of `EventLogIter`: a reference to the log plus the per-iterator
cursor `location`. -/
structure EventLogIter where
  log : EventLog
  location : Nat
deriving DecidableEq

/-- Model of `EventLog::iter`: a fresh iterator whose cursor starts at the
log's `location`. -/
def EventLog.iter (log : EventLog) : EventLogIter :=
  { log := log, location := log.location }

/-- Model of `<EventLogIter as Iterator>::next`.  Mutation of `self` is made
explicit: the result pairs the yielded item with the successor iterator
state; `none` models `None` (the iterator state is then unchanged). -/
def EventLogIter.next (mem : Nat → Nat) (it : EventLogIter) :
    Option (PcrEvent × EventLogIter) :=
  if it.location = 0 ∨ it.log.last_entry = 0 then
    none
  else
    let event := PcrEvent.from_ptr mem it.location
    if it.location = it.log.last_entry then
      some (event, { it with location := 0 })
    else
      some (event, { it with location := it.location + event.size_of_val })

/-- Repeatedly call `next`, collecting the yielded record views; `fuel`
bounds the number of calls so the walk is a total function. -/
def walk (mem : Nat → Nat) : EventLogIter → Nat → List PcrEvent
  | _, 0 => []
  | it, fuel + 1 =>
    match it.next mem with
    | none => []
    | some (e, it2) => e :: walk mem it2 fuel

/-- Iterator state after `n` calls to `next` that all yielded an item;
`none` when some earlier call returned `None`. -/
def stepN (mem : Nat → Nat) : Nat → EventLogIter → Option EventLogIter
  | 0, it => some it
  | n + 1, it =>
    match it.next mem with
    | none => none
    | some (_, it2) => stepN mem n it2

/-- Address of the `n`-th record of a log whose first record sits at
`start`, following the size chain `next = cur + 32 + event_data_size cur`. -/
def recordAddr (mem : Nat → Nat) (start : Nat) : Nat → Nat
  | 0 => start
  | n + 1 =>
    let a := recordAddr mem start n
    a + 32 + readU32 mem (a + 28)

/-- The list of `n` record views at consecutive storage addresses starting
at `start`, in storage order. -/
def recordsFrom (mem : Nat → Nat) (start : Nat) : Nat → List PcrEvent
  | 0 => []
  | n + 1 =>
    let e := PcrEvent.from_ptr mem start
    e :: recordsFrom mem (start + e.size_of_val) n

/-- A log is well formed with `N` records when either it is empty
(`last_entry` is the null sentinel and `N = 0`), or `N ≥ 1`, its `location`
is non-null and its `last_entry` is the address of the `N`-th record of the
size chain starting at `location` (the last record, not one-past-the-end). -/
def wellFormed (mem : Nat → Nat) (log : EventLog) (N : Nat) : Prop :=
  (N = 0 ∧ log.last_entry = 0) ∨
    (0 < N ∧ log.location ≠ 0 ∧
      log.last_entry = recordAddr mem log.location (N - 1))

instance (mem : Nat → Nat) (log : EventLog) (N : Nat) :
    Decidable (wellFormed mem log N) := by
  unfold wellFormed; infer_instance

/-! ### Fixed-layout descriptor types and their derived ordering -/

/-- Model of `Version` (`TCG_VERSION`): four unsigned byte fields in
declaration order `major, minor, rev_major, rev_minor`. -/
structure Version where
  major : Nat
  minor : Nat
  rev_major : Nat
  rev_minor : Nat
deriving DecidableEq

/-- Semantics of the derived `PartialOrd`/`Ord` `<` on `Version`:
field-by-field lexicographic comparison in declaration order. -/
def Version.lt (a b : Version) : Prop :=
  a.major < b.major ∨ (a.major = b.major ∧
    (a.minor < b.minor ∨ (a.minor = b.minor ∧
      (a.rev_major < b.rev_major ∨ (a.rev_major = b.rev_major ∧
        a.rev_minor < b.rev_minor)))))

/-- Model of `BootServiceCapability` (`TCG_EFI_BOOT_SERVICE_CAPABILITY`):
a byte, two nested `Version`s, and three byte fields, 12 bytes total. -/
structure BootServiceCapability where
  size : Nat
  structure_version : Version
  protocol_spec_version : Version
  hash_algorithm_bitmap : Nat
  tpm_present_flag : Nat
  tpm_deactivated_flag : Nat
deriving DecidableEq

/-- Semantics of the derived `PartialOrd`/`Ord` `<` on
`BootServiceCapability`: field-by-field lexicographic comparison in
declaration order, nested fields compared by their own derived order. -/
def BootServiceCapability.lt (a b : BootServiceCapability) : Prop :=
  a.size < b.size ∨ (a.size = b.size ∧
    (Version.lt a.structure_version b.structure_version ∨
      (a.structure_version = b.structure_version ∧
        (Version.lt a.protocol_spec_version b.protocol_spec_version ∨
          (a.protocol_spec_version = b.protocol_spec_version ∧
            (a.hash_algorithm_bitmap < b.hash_algorithm_bitmap ∨
              (a.hash_algorithm_bitmap = b.hash_algorithm_bitmap ∧
                (a.tpm_present_flag < b.tpm_present_flag ∨
                  (a.tpm_present_flag = b.tpm_present_flag ∧
                    a.tpm_deactivated_flag < b.tpm_deactivated_flag)))))))))

/-- The 12-byte `repr(C)` representation of a `BootServiceCapability`, in
declaration order with no padding. -/
def BootServiceCapability.toBytes (c : BootServiceCapability) : List Nat :=
  [c.size,
   c.structure_version.major, c.structure_version.minor,
   c.structure_version.rev_major, c.structure_version.rev_minor,
   c.protocol_spec_version.major, c.protocol_spec_version.minor,
   c.protocol_spec_version.rev_major, c.protocol_spec_version.rev_minor,
   c.hash_algorithm_bitmap, c.tpm_present_flag, c.tpm_deactivated_flag]

/-- Accessor `BootServiceCapability::tpm_present`. -/
def BootServiceCapability.tpm_present (c : BootServiceCapability) : Bool :=
  c.tpm_present_flag ≠ 0

/-- Accessor `BootServiceCapability::tpm_deactivated`. -/
def BootServiceCapability.tpm_deactivated (c : BootServiceCapability) : Bool :=
  c.tpm_deactivated_flag ≠ 0

/-! ### Status codes and the status-check entry point -/

/-- Modelled from the spec: firmware numeric status codes (the `Status`
type lives outside `src/`).  `0` is the success code; error codes have the
high bit of a 64-bit word set. -/
def STATUS_SUCCESS : Nat := 0

/-- Modelled from the spec: the reserved "not ready" firmware status code
(`Status::NOT_READY`, the error bit plus 6). -/
def STATUS_NOT_READY : Nat := 2 ^ 63 + 6

/-- Modelled from the spec: `Status::is_success`, true exactly for the
success code. -/
def statusIsSuccess (st : Nat) : Bool := st = STATUS_SUCCESS

/-- Model of `StatusCheck`, the aggregate returned by
`Tcg::status_check`. -/
structure StatusCheck where
  protocol_capability : BootServiceCapability
  feature_flags : Nat
  event_log : EventLog
deriving DecidableEq

/-- Model of `Tcg::status_check`.  The single firmware call is external; its
returned status code and output parameters (`protocol_capability`,
`feature_flags`, `event_log_location`, `event_log_last_entry`) are taken as
arguments, and the function performs the translation the Rust code performs
after the call: on success, build the `EventLog` over the returned range
with `is_truncated = false` and return the aggregate; otherwise return the
typed error carrying the raw status code. -/
def status_check (st : Nat) (protocol_capability : BootServiceCapability)
    (feature_flags : Nat) (event_log_location event_log_last_entry : Nat) :
    Except Nat StatusCheck :=
  if statusIsSuccess st then
    Except.ok
      { protocol_capability := protocol_capability
        feature_flags := feature_flags
        event_log := EventLog.new event_log_location event_log_last_entry false }
  else
    Except.error st

/-! ### Extended text input (`input_ex.rs`) -/

/-- Model of `RawKey`: scan code and Unicode character as raw numbers. -/
structure RawKey where
  scan_code : Nat
  unicode_char : Nat
deriving DecidableEq

/-- Model of `Key_ex`: printable character or special scan code. -/
inductive Key_ex where
  | Printable (c : Nat)
  | Special (s : Nat)
deriving DecidableEq

/-- Model of `impl From<RawKey> for Key_ex`: a null scan code means the
Unicode character is used. -/
def Key_ex.fromRawKey (k : RawKey) : Key_ex :=
  if k.scan_code = 0 then .Printable k.unicode_char else .Special k.scan_code

/-- Model of `Input_ex::read_key`.  The firmware `read_key_stroke_ex` call
is external; its returned status code and the key it would write are taken
as arguments.  `NOT_READY` maps to `Ok(None)`; any other status goes through
`into_with_val` (modelled from the spec, the helper lives outside `src/`):
success yields `Ok(Some(key.into()))`, failure the typed error carrying the
code. -/
def read_key (st : Nat) (key : RawKey) : Except Nat (Option Key_ex) :=
  if st = STATUS_NOT_READY then
    Except.ok none
  else if statusIsSuccess st then
    Except.ok (some (Key_ex.fromRawKey key))
  else
    Except.error st

/-! ### Concrete firmware memory from the repository's own test vector -/

/-- The two-record TPM event-log dump used by `test_event_log_v1` in the
source: record 1 at offset 0 (event type `0x00000008`, 2-byte payload),
record 2 at offset 34 (event type `0x80000008`, 16-byte payload). -/
def testBytes : List Nat :=
  [0x00, 0x00, 0x00, 0x00,
   0x08, 0x00, 0x00, 0x00,
   0x14, 0x89, 0xf9, 0x23, 0xc4, 0xdc, 0xa7, 0x29, 0x17, 0x8b,
   0x3e, 0x32, 0x33, 0x45, 0x85, 0x50, 0xd8, 0xdd, 0xdf, 0x29,
   0x02, 0x00, 0x00, 0x00,
   0x00, 0x00,
   0x00, 0x00, 0x00, 0x00,
   0x08, 0x00, 0x00, 0x80,
   0xc7, 0x06, 0xe7, 0xdd, 0x36, 0x39, 0x29, 0x84, 0xeb, 0x06,
   0xaa, 0xa0, 0x8f, 0xf3, 0x36, 0x84, 0x40, 0x77, 0xb3, 0xed,
   0x10, 0x00, 0x00, 0x00,
   0x00, 0x00, 0x82, 0x00, 0x00, 0x00, 0x00, 0x00,
   0x00, 0x00, 0x0e, 0x00, 0x00, 0x00, 0x00, 0x00]

/-- The test buffer mapped at base address 64 (a non-null address), all
other memory zero. -/
def memT (a : Nat) : Nat :=
  if a < 64 then 0 else testBytes.getD (a - 64) 0

/-- The event log over the test buffer: first record at 64, last record at
64 + 34 = 98, as in the source test. -/
def logT : EventLog := EventLog.new 64 98 false

/-! ### Helper lemmas about the walker -/

lemma next_none_of_location_zero (mem : Nat → Nat) {it : EventLogIter}
    (h : it.location = 0) : it.next mem = none := by
  simp [EventLogIter.next, h]

lemma next_none_of_last_entry_zero (mem : Nat → Nat) {it : EventLogIter}
    (h : it.log.last_entry = 0) : it.next mem = none := by
  simp [EventLogIter.next, h]

lemma walk_of_next_none (mem : Nat → Nat) {it : EventLogIter}
    (h : it.next mem = none) : ∀ fuel, walk mem it fuel = [] := by
  intro fuel
  cases fuel with
  | zero => rfl
  | succ fuel => simp [walk, h]

/-- Inversion of a successful `next` call: the guard held, the yielded view
was constructed at the cursor, the log reference is unchanged, and the new
cursor is either the sentinel (cursor was at `last_entry`) or advanced by
exactly the view's size. -/
lemma next_some_cases (mem : Nat → Nat) {it it2 : EventLogIter} {e : PcrEvent}
    (h : it.next mem = some (e, it2)) :
    it.location ≠ 0 ∧ it.log.last_entry ≠ 0 ∧
    e = PcrEvent.from_ptr mem it.location ∧ it2.log = it.log ∧
    ((it.location = it.log.last_entry ∧ it2.location = 0) ∨
      (it.location ≠ it.log.last_entry ∧
        it2.location = it.location + e.size_of_val)) := by
  unfold EventLogIter.next at h
  split at h
  · exact absurd h (by simp)
  · rename_i hguard
    push_neg at hguard
    split at h
    · rename_i heq
      simp only [Option.some.injEq, Prod.mk.injEq] at h
      obtain ⟨he, hit⟩ := h
      exact ⟨hguard.1, hguard.2, he.symm, by rw [← hit], Or.inl ⟨heq, by rw [← hit]⟩⟩
    · rename_i hne
      simp only [Option.some.injEq, Prod.mk.injEq] at h
      obtain ⟨he, hit⟩ := h
      refine ⟨hguard.1, hguard.2, he.symm, by rw [← hit], Or.inr ⟨hne, ?_⟩⟩
      rw [← hit, ← he]

lemma from_ptr_size (mem : Nat → Nat) (p : Nat) :
    (PcrEvent.from_ptr mem p).size_of_val = 32 + readU32 mem (p + 28) := rfl

lemma recordAddr_lt_succ (mem : Nat → Nat) (s n : Nat) :
    recordAddr mem s n < recordAddr mem s (n + 1) := by
  simp [recordAddr]
  omega

lemma recordAddr_strictMono (mem : Nat → Nat) (s : Nat) :
    StrictMono (recordAddr mem s) :=
  strictMono_nat_of_lt_succ (recordAddr_lt_succ mem s)

lemma le_recordAddr (mem : Nat → Nat) (s n : Nat) : s ≤ recordAddr mem s n := by
  induction n with
  | zero => exact Nat.le_refl s
  | succ n ih =>
    have := recordAddr_lt_succ mem s n
    omega

lemma recordAddr_ne_zero (mem : Nat → Nat) {s : Nat} (n : Nat) (hs : s ≠ 0) :
    recordAddr mem s n ≠ 0 := by
  have := le_recordAddr mem s n
  omega

lemma recordsFrom_length (mem : Nat → Nat) (s n : Nat) :
    (recordsFrom mem s n).length = n := by
  induction n generalizing s with
  | zero => rfl
  | succ n ih => simp [recordsFrom, ih]

lemma recordAddr_shift (mem : Nat → Nat) (s n : Nat) :
    recordAddr mem (s + 32 + readU32 mem (s + 28)) n = recordAddr mem s (n + 1) := by
  induction n with
  | zero => simp [recordAddr]
  | succ n ih => simp only [recordAddr, ih]

/-- The `i`-th record view produced by `recordsFrom` sits exactly at the
`i`-th address of the size chain: the views come in storage order. -/
lemma recordsFrom_map_ptr (mem : Nat → Nat) (s n : Nat) :
    (recordsFrom mem s n).map PcrEvent.ptr =
      (List.range n).map (recordAddr mem s) := by
  induction n generalizing s with
  | zero => simp [recordsFrom]
  | succ n ih =>
    rw [List.range_succ_eq_map]
    simp only [recordsFrom, List.map_cons, List.map_map]
    refine congrArg₂ List.cons rfl ?_
    have hsz : s + (PcrEvent.from_ptr mem s).size_of_val =
        s + 32 + readU32 mem (s + 28) := by
      rw [from_ptr_size]
      omega
    rw [hsz, ih]
    refine List.map_congr_left ?_
    intro i _
    exact recordAddr_shift mem s i

/-- Main walk lemma: starting the walk at the `(N - m)`-th record address of
a log whose last entry is the `(N-1)`-th, with any fuel at least `m`, yields
exactly the remaining `m` records. -/
lemma walk_wf (mem : Nat → Nat) (log : EventLog) (hs : log.location ≠ 0)
    (N : Nat) (hlast : log.last_entry = recordAddr mem log.location (N - 1)) :
    ∀ m k, 0 < m → m ≤ N →
      walk mem ⟨log, recordAddr mem log.location (N - m)⟩ (m + k) =
        recordsFrom mem (recordAddr mem log.location (N - m)) m := by
  intro m
  induction m with
  | zero => intro k h; omega
  | succ m ih =>
    intro k _ hmN
    have hfuel : m + 1 + k = (m + k) + 1 := by omega
    rw [hfuel]
    have hlz : recordAddr mem log.location (N - (m + 1)) ≠ 0 :=
      recordAddr_ne_zero mem _ hs
    have hlez : log.last_entry ≠ 0 := by
      rw [hlast]
      exact recordAddr_ne_zero mem _ hs
    cases Nat.eq_zero_or_pos m with
    | inl hm =>
      subst hm
      have heq : recordAddr mem log.location (N - 1) = log.last_entry := hlast.symm
      simp only [walk, EventLogIter.next, hlz, hlez, or_self, if_false, heq,
        if_true, ite_true, if_pos rfl]
      rw [walk_of_next_none mem (next_none_of_location_zero mem rfl)]
      simp [recordsFrom]
    | inr hm =>
      have hne : recordAddr mem log.location (N - (m + 1)) ≠ log.last_entry := by
        rw [hlast]
        have : N - (m + 1) < N - 1 := by omega
        exact Nat.ne_of_lt (recordAddr_strictMono mem log.location this)
      simp only [walk, EventLogIter.next, hlz, hlez, or_self, if_false, hne,
        ite_false]
      have hstep : recordAddr mem log.location (N - (m + 1)) +
          (PcrEvent.from_ptr mem (recordAddr mem log.location (N - (m + 1)))).size_of_val =
          recordAddr mem log.location (N - m) := by
        rw [from_ptr_size]
        have hsub : N - m = (N - (m + 1)) + 1 := by omega
        rw [hsub]
        simp only [recordAddr]
        omega
      rw [hstep, ih k hm (by omega)]
      simp only [recordsFrom]
      rw [hstep]

/-- A concrete capability value, used by witnesses. -/
def capT : BootServiceCapability :=
  { size := 22
    structure_version := { major := 1, minor := 2, rev_major := 0, rev_minor := 0 }
    protocol_spec_version := { major := 1, minor := 2, rev_major := 0, rev_minor := 0 }
    hash_algorithm_bitmap := 1
    tpm_present_flag := 1
    tpm_deactivated_flag := 0 }

/-! ### Claim theorems -/

/-- C1: for every well-formed log with `N` records, a full walk (any fuel
`N + k`) over a fresh iterator yields exactly the `N` record views at the
consecutive storage addresses, in storage order; the fresh iterator starts
its cursor at the log's `location` and carries the log by value (the
`EventLog` itself is never mutated), so a second fresh walk yields the same
list `recordsFrom mem log.location N` again. -/
theorem tcg_full_walk_yields_all_records (mem : Nat → Nat) (log : EventLog)
    (N k : Nat) (h : wellFormed mem log N) :
    (log.iter).location = log.location ∧ (log.iter).log = log ∧
    walk mem log.iter (N + k) = recordsFrom mem log.location N ∧
    (recordsFrom mem log.location N).length = N ∧
    (recordsFrom mem log.location N).map PcrEvent.ptr =
      (List.range N).map (recordAddr mem log.location) := by
  refine ⟨rfl, rfl, ?_, recordsFrom_length mem log.location N,
    recordsFrom_map_ptr mem log.location N⟩
  cases h with
  | inl h =>
    obtain ⟨hN, hlast⟩ := h
    subst hN
    rw [walk_of_next_none mem (next_none_of_last_entry_zero mem hlast)]
    rfl
  | inr h =>
    obtain ⟨hN, hs, hlast⟩ := h
    have hw := walk_wf mem log hs N hlast N k hN le_rfl
    rw [Nat.sub_self] at hw
    exact hw

/-- Witness for C1 on the repository's own two-record test vector. -/
theorem tcg_full_walk_yields_all_records_witness :
    wellFormed memT logT 2 ∧
      walk memT logT.iter (2 + 1) = recordsFrom memT logT.location 2 :=
  ⟨by decide, (tcg_full_walk_yields_all_records memT logT 2 1 (by decide)).2.2.1⟩

/-- C2: every record view built by `from_ptr` spans exactly 32 header bytes
plus the payload length read by the unaligned 4-byte read at byte offset 28;
and when `next` yields a record whose address is not `last_entry`, the new
cursor is exactly the old cursor plus `32 + event_data().len()`: the header
size plus payload length is the distance to the next record's start. -/
theorem tcg_record_size_and_advance (mem : Nat → Nat) (p : Nat)
    (it it2 : EventLogIter) (e : PcrEvent)
    (h : it.next mem = some (e, it2))
    (hne : it.location ≠ it.log.last_entry) :
    (PcrEvent.from_ptr mem p).size_of_val = 32 + readU32 mem (p + 28) ∧
    it2.location = it.location + (32 + (PcrEvent.event_data mem e).length) := by
  obtain ⟨_, _, _, _, hcases⟩ := next_some_cases mem h
  refine ⟨from_ptr_size mem p, ?_⟩
  cases hcases with
  | inl hc => exact absurd hc.1 hne
  | inr hc =>
    rw [hc.2]
    simp [PcrEvent.event_data, readBytes, PcrEvent.size_of_val]

/-- Witness for C2 at the first record of the test vector. -/
theorem tcg_record_size_and_advance_witness :
    ((logT.iter).next memT = some (⟨64, 2⟩, ⟨logT, 98⟩) ∧
      (logT.iter).location ≠ (logT.iter).log.last_entry) ∧
    ((PcrEvent.from_ptr memT 64).size_of_val = 32 + readU32 memT (64 + 28) ∧
      (⟨logT, 98⟩ : EventLogIter).location =
        (logT.iter).location + (32 + (PcrEvent.event_data memT ⟨64, 2⟩).length)) :=
  ⟨⟨by decide, by decide⟩,
    tcg_record_size_and_advance memT 64 logT.iter ⟨logT, 98⟩ ⟨64, 2⟩
      (by decide) (by decide)⟩

/-- C3: when the firmware call returns any non-success status, the
operation returns the typed error carrying that exact code; the `ok`
constructor (and with it any `EventLog`, `Capability` or partial
`StatusCheck`) is never built. -/
theorem tcg_status_check_failure (st : Nat) (cap : BootServiceCapability)
    (ff loc last : Nat) (h : st ≠ STATUS_SUCCESS) :
    status_check st cap ff loc last = Except.error st := by
  simp [status_check, statusIsSuccess, h]

/-- Witness for C3 at a concrete non-success status code. -/
theorem tcg_status_check_failure_witness :
    (5 : Nat) ≠ STATUS_SUCCESS ∧
      status_check 5 capT 0 64 98 = Except.error 5 :=
  ⟨by decide, tcg_status_check_failure 5 capT 0 64 98 (by decide)⟩

/-- C4: on firmware success, `status_check` returns the aggregate of the
decoded capability, the verbatim feature flags, and an `EventLog` over the
returned `[location, last_entry]` range whose `is_truncated` flag is
`false`; hence `is_truncated()` on every log a v1 `status_check` produces is
`false` regardless of content. -/
theorem tcg_status_check_success (st : Nat) (cap : BootServiceCapability)
    (ff loc last : Nat) (h : st = STATUS_SUCCESS) :
    status_check st cap ff loc last =
      Except.ok
        { protocol_capability := cap, feature_flags := ff,
          event_log := EventLog.new loc last false } ∧
    (EventLog.new loc last false).is_truncated = false := by
  subst h
  exact ⟨by simp [status_check, statusIsSuccess], rfl⟩

/-- Witness for C4 at the success status code. -/
theorem tcg_status_check_success_witness :
    (STATUS_SUCCESS : Nat) = STATUS_SUCCESS ∧
      (status_check STATUS_SUCCESS capT 0 64 98 =
        Except.ok
          { protocol_capability := capT, feature_flags := 0,
            event_log := EventLog.new 64 98 false } ∧
        (EventLog.new 64 98 false).is_truncated = false) :=
  ⟨rfl, tcg_status_check_success STATUS_SUCCESS capT 0 64 98 rfl⟩

/-- C5: when `last_entry_location` is the null sentinel, the very first
`next` call returns `None` without constructing any record view, and any
walk with any fuel yields zero items. -/
theorem tcg_empty_log_walk_empty (mem : Nat → Nat) (it : EventLogIter)
    (fuel : Nat) (h : it.log.last_entry = 0) :
    it.next mem = none ∧ walk mem it fuel = [] := by
  have hn := next_none_of_last_entry_zero mem h
  exact ⟨hn, walk_of_next_none mem hn fuel⟩

/-- Witness for C5 on a log with the null sentinel as last entry. -/
theorem tcg_empty_log_walk_empty_witness :
    ((EventLog.new 64 0 false).iter).log.last_entry = 0 ∧
      (((EventLog.new 64 0 false).iter).next memT = none ∧
        walk memT ((EventLog.new 64 0 false).iter) 3 = []) :=
  ⟨rfl, tcg_empty_log_walk_empty memT ((EventLog.new 64 0 false).iter) 3 rfl⟩

/-- C6: walks terminate.  After `n` item-yielding calls to `next` the
cursor either is the null sentinel (the next call ends the sequence) or has
strictly advanced by at least the 32-byte fixed-header size per step, so in
an address space bounded by `A` at most `A / 32 + 1` items can ever be
yielded: every walk terminates. -/
theorem tcg_walk_cursor_advances (mem : Nat → Nat) (n : Nat)
    (it it2 : EventLogIter) (h : stepN mem n it = some it2) :
    it2.location = 0 ∨ it.location + 32 * n ≤ it2.location := by
  induction n generalizing it with
  | zero =>
    simp only [stepN, Option.some.injEq] at h
    subst h
    right
    omega
  | succ n ih =>
    simp only [stepN] at h
    cases hnext : it.next mem with
    | none =>
      rw [hnext] at h
      exact absurd h (by simp)
    | some pair =>
      obtain ⟨e, it1⟩ := pair
      rw [hnext] at h
      obtain ⟨hl0, hle, he, hlog, hcases⟩ := next_some_cases mem hnext
      cases hcases with
      | inl hc =>
        cases n with
        | zero =>
          simp only [stepN, Option.some.injEq] at h
          subst h
          exact Or.inl hc.2
        | succ n =>
          simp only [stepN, next_none_of_location_zero mem hc.2] at h
          exact Option.noConfusion h
      | inr hc =>
        cases ih it1 h with
        | inl h0 => exact Or.inl h0
        | inr hadv =>
          right
          have hsz : it.location + 32 ≤ it1.location := by
            rw [hc.2]
            unfold PcrEvent.size_of_val
            omega
          omega

/-- Witness for C6: two yielding steps over the test vector reach the
sentinel cursor. -/
theorem tcg_walk_cursor_advances_witness :
    stepN memT 2 logT.iter = some ⟨logT, 0⟩ ∧
      ((⟨logT, 0⟩ : EventLogIter).location = 0 ∨
        (logT.iter).location + 32 * 2 ≤ (⟨logT, 0⟩ : EventLogIter).location) :=
  ⟨by decide, tcg_walk_cursor_advances memT 2 logT.iter ⟨logT, 0⟩ (by decide)⟩

/-- C9: the iterator is fused.  Yielding the record at `last_entry` sets
the cursor to the null sentinel, after which `next` returns `None` and any
further walk yields nothing; and a `next` that returns `None` leaves the
iterator unchanged, so it keeps returning `None`. -/
theorem tcg_iter_fused (mem : Nat → Nat) (it it2 : EventLogIter)
    (e : PcrEvent) (fuel : Nat)
    (h : it.next mem = some (e, it2))
    (hlast : it.location = it.log.last_entry) :
    it2.location = 0 ∧ it2.next mem = none ∧ walk mem it2 fuel = [] := by
  obtain ⟨_, _, _, _, hcases⟩ := next_some_cases mem h
  cases hcases with
  | inl hc =>
    have hn := next_none_of_location_zero mem hc.2
    exact ⟨hc.2, hn, walk_of_next_none mem hn fuel⟩
  | inr hc => exact absurd hlast hc.1

/-- Witness for C9 at the last record of the test vector. -/
theorem tcg_iter_fused_witness :
    (EventLogIter.next memT ⟨logT, 98⟩ = some (⟨98, 16⟩, ⟨logT, 0⟩) ∧
      (⟨logT, 98⟩ : EventLogIter).location = (⟨logT, 98⟩ : EventLogIter).log.last_entry) ∧
    ((⟨logT, 0⟩ : EventLogIter).location = 0 ∧
      EventLogIter.next memT ⟨logT, 0⟩ = none ∧ walk memT ⟨logT, 0⟩ 4 = []) :=
  ⟨⟨by decide, by decide⟩,
    tcg_iter_fused memT ⟨logT, 98⟩ ⟨logT, 0⟩ ⟨98, 16⟩ 4 (by decide) (by decide)⟩

/-- C10: a null cursor — in particular an iterator over a log whose start
location is null, even with a non-null `last_entry` — makes `next` return
`None` immediately and every walk yield nothing, so no record view is ever
constructed from a null pointer: the guard checks both pointers. -/
theorem tcg_null_start_yields_nothing (mem : Nat → Nat) (it : EventLogIter)
    (fuel : Nat) (h : it.location = 0) :
    it.next mem = none ∧ walk mem it fuel = [] := by
  have hn := next_none_of_location_zero mem h
  exact ⟨hn, walk_of_next_none mem hn fuel⟩

/-- Witness for C10 on a log with null start and non-null last entry. -/
theorem tcg_null_start_yields_nothing_witness :
    ((EventLog.new 0 500 false).iter).location = 0 ∧
      (((EventLog.new 0 500 false).iter).next memT = none ∧
        walk memT ((EventLog.new 0 500 false).iter) 3 = []) :=
  ⟨rfl, tcg_null_start_yields_nothing memT ((EventLog.new 0 500 false).iter) 3 rfl⟩

lemma lex_cons_iff {a b : Nat} {l m : List Nat} :
    List.Lex (· < ·) (a :: l) (b :: m) ↔
      a < b ∨ (a = b ∧ List.Lex (· < ·) l m) := by
  constructor
  · intro h
    cases h with
    | rel h => exact Or.inl h
    | cons h => exact Or.inr ⟨rfl, h⟩
  · rintro (h | ⟨rfl, h⟩)
    · exact List.Lex.rel h
    · exact List.Lex.cons h

lemma lex_nil_iff : List.Lex (· < ·) ([] : List Nat) [] ↔ False := by
  constructor
  · intro h
    cases h
  · exact False.elim

/-- Continuation form of the derived lexicographic `<` on `Version`. -/
lemma version_lt_cont (a b : Version) (P : Prop) :
    (Version.lt a b ∨ (a = b ∧ P)) ↔
      (a.major < b.major ∨ (a.major = b.major ∧
        (a.minor < b.minor ∨ (a.minor = b.minor ∧
          (a.rev_major < b.rev_major ∨ (a.rev_major = b.rev_major ∧
            (a.rev_minor < b.rev_minor ∨ (a.rev_minor = b.rev_minor ∧ P)))))))) := by
  obtain ⟨a1, a2, a3, a4⟩ := a
  obtain ⟨b1, b2, b3, b4⟩ := b
  simp only [Version.lt, Version.mk.injEq]
  tauto

/-- C7: the derived comparison operators on `BootServiceCapability` are
byte-lexicographic over its 12-byte `repr(C)` representation: `<` coincides
with lexicographic comparison of `toBytes` in declaration order, and `==`
coincides with equality of the representations. -/
theorem capability_order_is_byte_lex (a b : BootServiceCapability) :
    (BootServiceCapability.lt a b ↔
      List.Lex (· < ·) a.toBytes b.toBytes) ∧
    (a = b ↔ a.toBytes = b.toBytes) := by
  obtain ⟨a1, av, aw, a2, a3, a4⟩ := a
  obtain ⟨b1, bv, bw, b2, b3, b4⟩ := b
  constructor
  · simp only [BootServiceCapability.toBytes, lex_cons_iff, lex_nil_iff,
      and_false, or_false, BootServiceCapability.lt]
    rw [version_lt_cont, version_lt_cont]
  · obtain ⟨av1, av2, av3, av4⟩ := av
    obtain ⟨bv1, bv2, bv3, bv4⟩ := bv
    obtain ⟨aw1, aw2, aw3, aw4⟩ := aw
    obtain ⟨bw1, bw2, bw3, bw4⟩ := bw
    simp only [BootServiceCapability.mk.injEq, Version.mk.injEq,
      BootServiceCapability.toBytes, List.cons.injEq, and_true]
    tauto

/-- C8: the polling `read_key` maps the reserved "not ready" status to a
result distinguishable from success and failure: it returns `Ok(None)`
exactly for the not-ready code, `Ok(Some(key))` exactly on success, and the
typed error carrying the code exactly for every other non-success code. -/
theorem read_key_not_ready_distinguishable (st : Nat) (k : RawKey) :
    (read_key st k = Except.ok none ↔ st = STATUS_NOT_READY) ∧
    (read_key st k = Except.ok (some (Key_ex.fromRawKey k)) ↔
      st = STATUS_SUCCESS) ∧
    (read_key st k = Except.error st ↔
      (st ≠ STATUS_NOT_READY ∧ st ≠ STATUS_SUCCESS)) := by
  have hne : STATUS_NOT_READY ≠ STATUS_SUCCESS := by decide
  by_cases h1 : st = STATUS_NOT_READY
  · subst h1
    simp [read_key, statusIsSuccess, hne]
  · by_cases h2 : st = STATUS_SUCCESS
    · subst h2
      simp [read_key, statusIsSuccess, hne, Ne.symm hne]
    · simp [read_key, statusIsSuccess, h1, h2]

end Uefi

